import Mathlib

/-!
Verification of the schema-diff core (src/index.ts): canonical schema model,
SQL clause parsing, JSON schema parsing, the diff engine and the
breaking-change predicates, shallowly embedded in Lean.

JavaScript `Map<string, _>` values are modelled as insertion-ordered
association lists `List (String × _)`; `Map.set` replaces in place on an
existing key and appends otherwise, so lists built through `mapSet` have
pairwise distinct keys, exactly as JS maps do.  Where a theorem quantifies
over raw association lists, the JS map invariant (no duplicate keys) is
carried as an explicit `WF` hypothesis.  Strings are ASCII here: the
JS regexes in the source only involve ASCII character classes.
-/

namespace SchemaDiff

/-- `Column` record from src/index.ts (`defaultVal: string | null` becomes
`Option String`). -/
structure Column where
  name : String
  type : String
  nullable : Bool
  defaultVal : Option String
  primaryKey : Bool
  unique : Bool
deriving DecidableEq

/-- `Constraint` record from src/index.ts (`references?: string` becomes
`Option String`). -/
structure Constraint where
  name : String
  type : String
  columns : List String
  references : Option String
deriving DecidableEq

/-- `Table` record: `columns: Map<string, Column>` as an ordered assoc list. -/
structure Table where
  name : String
  columns : List (String × Column)
  constraints : List Constraint
deriving DecidableEq

/-- `Schema` record: `tables: Map<string, Table>` as an ordered assoc list. -/
structure Schema where
  tables : List (String × Table)
deriving DecidableEq

/-- `ColumnChange` record from src/index.ts. -/
structure ColumnChange where
  name : String
  oldType : String
  newType : String
  oldNullable : Bool
  newNullable : Bool
  oldDefault : Option String
  newDefault : Option String
  breaking : Bool
deriving DecidableEq

/-- `TableDiff` record from src/index.ts. -/
structure TableDiff where
  name : String
  addedColumns : List Column
  removedColumns : List Column
  changedColumns : List ColumnChange
  addedConstraints : List Constraint
  removedConstraints : List Constraint
deriving DecidableEq

/-- `Diff` record from src/index.ts. -/
structure Diff where
  addedTables : List String
  removedTables : List String
  changedTables : List TableDiff
deriving DecidableEq

/-! ### JS `Map` operations on association lists -/

/-- `Map.get`: the value stored at key `k` (first, hence only, occurrence). -/
def mapGet (m : List (String × α)) (k : String) : Option α :=
  (m.find? (fun p => p.1 == k)).map (fun p => p.2)

/-- `Map.has`. -/
def mapHas (m : List (String × α)) (k : String) : Bool :=
  m.any (fun p => p.1 == k)

/-- `Map.keys` (in insertion order). -/
def mapKeys (m : List (String × α)) : List String :=
  m.map (fun p => p.1)

/-- `Map.set`: replace in place when the key is present, append otherwise. -/
def mapSet (m : List (String × α)) (k : String) (v : α) : List (String × α) :=
  if m.any (fun p => p.1 == k) then
    m.map (fun p => if p.1 == k then (k, v) else p)
  else
    m ++ [(k, v)]

/-- The JS `Map` invariant: keys are pairwise distinct.  Every value of the
TypeScript `Schema` type satisfies this, since its tables and their column
collections are `Map`s. -/
def Schema.WF (s : Schema) : Prop :=
  (mapKeys s.tables).Nodup ∧ ∀ p ∈ s.tables, (mapKeys p.2.columns).Nodup

instance (s : Schema) : Decidable s.WF := by
  unfold Schema.WF; infer_instance

/-! ### Diff engine (src/index.ts lines 232-321) -/

/-- The constraint identity key built at src/index.ts lines 295-305:
`` `${c.type}:${c.columns.join(",")}` ``. -/
def constraintKey (c : Constraint) : String :=
  c.type ++ ":" ++ String.intercalate "," c.columns

/-- Membership of a string in a list of strings, as the JS `Set.has`
membership test used for constraint keys. -/
def strMem (s : String) (l : List String) : Bool :=
  l.any (fun x => x == s)

/-- The `ColumnChange` pushed at src/index.ts lines 271-284, including the
breaking classification
`oldCol.type !== newCol.type || (oldCol.nullable && !newCol.nullable)`. -/
def columnChangeOf (colName : String) (oldCol newCol : Column) : ColumnChange :=
  { name := colName
    oldType := oldCol.type
    newType := newCol.type
    oldNullable := oldCol.nullable
    newNullable := newCol.nullable
    oldDefault := oldCol.defaultVal
    newDefault := newCol.defaultVal
    breaking := (oldCol.type != newCol.type) || (oldCol.nullable && !newCol.nullable) }

/-- Per-table part of `diffSchemas` (src/index.ts lines 256-316): the column
and constraint comparison for a table present in both schemas. -/
def diffTable (name : String) (oldT newT : Table) : TableDiff :=
  { name := name
    addedColumns :=
      (newT.columns.filter (fun p => !(mapHas oldT.columns p.1))).map (fun p => p.2)
    removedColumns :=
      oldT.columns.filterMap (fun p =>
        if mapHas newT.columns p.1 then none else mapGet oldT.columns p.1)
    changedColumns :=
      newT.columns.filterMap (fun p =>
        match mapGet oldT.columns p.1 with
        | none => none
        | some oldCol =>
          if oldCol.type ≠ p.2.type ∨ oldCol.nullable ≠ p.2.nullable ∨
              oldCol.defaultVal ≠ p.2.defaultVal then
            some (columnChangeOf p.1 oldCol p.2)
          else none)
    addedConstraints :=
      newT.constraints.filter (fun con =>
        !(strMem (constraintKey con) (oldT.constraints.map constraintKey)))
    removedConstraints :=
      oldT.constraints.filter (fun con =>
        !(strMem (constraintKey con) (newT.constraints.map constraintKey))) }

/-- A `TableDiff` is pushed onto `changedTables` only when one of its five
change lists is non-empty (src/index.ts line 308). -/
def TableDiff.nontrivial (t : TableDiff) : Bool :=
  !(t.addedColumns.isEmpty && t.removedColumns.isEmpty && t.changedColumns.isEmpty &&
    t.addedConstraints.isEmpty && t.removedConstraints.isEmpty)

/-- `diffSchemas` (src/index.ts lines 232-321). -/
def diffSchemas (oldS newS : Schema) : Diff :=
  { addedTables :=
      (mapKeys newS.tables).filter (fun n => !(mapHas oldS.tables n))
    removedTables :=
      (mapKeys oldS.tables).filter (fun n => !(mapHas newS.tables n))
    changedTables :=
      newS.tables.filterMap (fun p =>
        match mapGet oldS.tables p.1 with
        | none => none
        | some oldT =>
          let td := diffTable p.1 oldT p.2
          if td.nontrivial then some td else none) }

/-- `hasBreakingChanges` (src/index.ts lines 324-331). -/
def hasBreakingChanges (d : Diff) : Bool :=
  !d.removedTables.isEmpty ||
    d.changedTables.any (fun t =>
      !t.removedColumns.isEmpty || t.changedColumns.any (fun ch => ch.breaking))

/-- `filterBreakingOnly` (src/index.ts lines 333-346). -/
def filterBreakingOnly (d : Diff) : Diff :=
  { addedTables := []
    removedTables := d.removedTables
    changedTables :=
      (d.changedTables.map (fun t =>
        { t with
          addedColumns := []
          changedColumns := t.changedColumns.filter (fun ch => ch.breaking)
          addedConstraints := [] })).filter (fun t =>
        !t.removedColumns.isEmpty || !t.changedColumns.isEmpty ||
          !t.removedConstraints.isEmpty) }

/-! ### Association-list lemmas -/

theorem mapHas_of_mem_keys {α : Type} {m : List (String × α)} {k : String}
    (h : k ∈ mapKeys m) : mapHas m k = true := by
  simp only [mapKeys, List.mem_map] at h
  obtain ⟨p, hp, rfl⟩ := h
  simp only [mapHas, List.any_eq_true]
  exact ⟨p, hp, by simp⟩

theorem mapHas_of_mem {α : Type} {m : List (String × α)} {k : String} {v : α}
    (h : (k, v) ∈ m) : mapHas m k = true :=
  mapHas_of_mem_keys (by simp only [mapKeys, List.mem_map]; exact ⟨(k, v), h, rfl⟩)

theorem mem_keys_of_mem {α : Type} {m : List (String × α)} {k : String} {v : α}
    (h : (k, v) ∈ m) : k ∈ mapKeys m := by
  simp only [mapKeys, List.mem_map]
  exact ⟨(k, v), h, rfl⟩

theorem mapGet_self {α : Type} {m : List (String × α)}
    (hnd : (mapKeys m).Nodup) {k : String} {v : α} (h : (k, v) ∈ m) :
    mapGet m k = some v := by
  induction m with
  | nil => cases h
  | cons p rest ih =>
    simp only [mapKeys, List.map_cons, List.nodup_cons] at hnd
    rcases List.mem_cons.mp h with heq | hmem
    · subst heq
      simp [mapGet, List.find?]
    · have hne : p.1 ≠ k := by
        intro hk
        exact hnd.1 (hk ▸ (by simpa [mapKeys] using mem_keys_of_mem hmem))
      have hb : (p.1 == k) = false := by simpa using hne
      simp only [mapGet, List.find?, hb]
      exact ih hnd.2 hmem

theorem strMem_iff {s : String} {l : List String} : strMem s l = true ↔ s ∈ l := by
  simp only [strMem, List.any_eq_true, beq_iff_eq]
  exact ⟨fun ⟨x, hx, he⟩ => he ▸ hx, fun h => ⟨s, h, rfl⟩⟩

/-! ### Self-diff is empty (claim C7) -/

theorem diffTable_self (name : String) (T : Table)
    (h : (mapKeys T.columns).Nodup) :
    diffTable name T T = ⟨name, [], [], [], [], []⟩ := by
  unfold diffTable
  refine TableDiff.mk.injEq .. ▸ ?_
  simp only [and_true, true_and]
  refine ⟨?_, ?_, ?_, ?_, ?_⟩
  · rw [List.map_eq_nil_iff]
    rw [List.filter_eq_nil_iff]
    intro p hp
    simp [mapHas_of_mem (v := p.2) (by simpa using hp)]
  · rw [List.filterMap_eq_nil_iff]
    intro p hp
    simp [mapHas_of_mem (v := p.2) (by simpa using hp)]
  · rw [List.filterMap_eq_nil_iff]
    intro p hp
    rw [mapGet_self h (by simpa using hp)]
    simp
  · rw [List.filter_eq_nil_iff]
    intro con hcon
    simp [strMem_iff.mpr (List.mem_map_of_mem constraintKey hcon)]
  · rw [List.filter_eq_nil_iff]
    intro con hcon
    simp [strMem_iff.mpr (List.mem_map_of_mem constraintKey hcon)]

/-- C7 — `diffSchemas(S, S)` is the empty diff for every schema `S`.
The `Schema.WF` hypothesis records the JS `Map` key-uniqueness invariant
that every TypeScript `Schema` value enjoys by construction. -/
theorem diffSchemas_self (S : Schema) (h : S.WF) :
    diffSchemas S S = ⟨[], [], []⟩ := by
  unfold diffSchemas
  refine Diff.mk.injEq .. ▸ ?_
  refine ⟨?_, ?_, ?_⟩
  · rw [List.filter_eq_nil_iff]
    intro n hn
    simp [mapHas_of_mem_keys hn]
  · rw [List.filter_eq_nil_iff]
    intro n hn
    simp [mapHas_of_mem_keys hn]
  · rw [List.filterMap_eq_nil_iff]
    intro p hp
    rw [mapGet_self h.1 (by simpa using hp)]
    simp only
    rw [diffTable_self p.1 p.2 (h.2 p hp)]
    simp [TableDiff.nontrivial]

/-- C7 witness: a concrete two-table schema diffed against itself. -/
def sampleSchema : Schema :=
  { tables :=
      [("users",
        { name := "users"
          columns :=
            [("id", ⟨"id", "INTEGER", false, none, true, false⟩),
             ("email", ⟨"email", "TEXT", true, none, false, false⟩)]
          constraints := [⟨"pk_users", "PRIMARY KEY", ["id"], none⟩] }),
       ("orders",
        { name := "orders"
          columns := [("id", ⟨"id", "INTEGER", false, none, true, false⟩)]
          constraints := [] })] }

theorem diffSchemas_self_witness :
    diffSchemas sampleSchema sampleSchema = ⟨[], [], []⟩ :=
  diffSchemas_self sampleSchema (by decide)

/-- C8 — `addedTables` and `removedTables` swap under argument exchange:
both sides compute the same filter over the same key list. -/
theorem diffSchemas_add_remove_symm (A B : Schema) :
    (diffSchemas A B).addedTables = (diffSchemas B A).removedTables ∧
      (diffSchemas A B).removedTables = (diffSchemas B A).addedTables :=
  ⟨rfl, rfl⟩

/-- C9 — every `TableDiff` that `diffSchemas` or `filterBreakingOnly` emits
has at least one non-empty change list. -/
theorem changedTables_nontrivial (a b : Schema) (d : Diff) :
    ((diffSchemas a b).changedTables.all TableDiff.nontrivial = true) ∧
      ((filterBreakingOnly d).changedTables.all TableDiff.nontrivial = true) := by
  constructor
  · rw [List.all_eq_true]
    intro td htd
    simp only [diffSchemas, List.mem_filterMap] at htd
    obtain ⟨p, _, hf⟩ := htd
    revert hf
    cases mapGet a.tables p.1 with
    | none => simp
    | some oldT =>
      simp only
      split
      · rename_i hnt
        intro hf
        cases hf
        exact hnt
      · simp
  · rw [List.all_eq_true]
    intro td htd
    simp only [filterBreakingOnly, List.mem_filter] at htd
    have h := htd.2
    simp only [Bool.or_eq_true] at h
    simp only [TableDiff.nontrivial, Bool.not_eq_true', Bool.and_eq_false_iff]
    rcases h with (h | h) | h <;> simp_all

/-- C2 — `hasBreakingChanges` is true exactly when some table was removed,
some changed table lost a column, or some changed table has a breaking
column change. -/
theorem hasBreakingChanges_iff (d : Diff) :
    hasBreakingChanges d = true ↔
      d.removedTables ≠ [] ∨
        (∃ t ∈ d.changedTables, t.removedColumns ≠ []) ∨
        (∃ t ∈ d.changedTables, ∃ c ∈ t.changedColumns, c.breaking = true) := by
  simp only [hasBreakingChanges, Bool.or_eq_true, List.any_eq_true,
    Bool.not_eq_true', List.isEmpty_eq_false]
  constructor
  · rintro (h | ⟨t, ht, h | h⟩)
    · exact Or.inl h
    · exact Or.inr (Or.inl ⟨t, ht, h⟩)
    · exact Or.inr (Or.inr ⟨t, ht, h⟩)
  · rintro (h | ⟨t, ht, h⟩ | ⟨t, ht, c, hc, hb⟩)
    · exact Or.inl h
    · exact Or.inr ⟨t, ht, Or.inl h⟩
    · exact Or.inr ⟨t, ht, Or.inr ⟨c, hc, hb⟩⟩

/-- C1 — every `ColumnChange` that `diffSchemas` emits carries
`breaking = (oldType ≠ newType) || (oldNullable && !newNullable)`; in
particular a default-value-only change, or a relaxation from not-null to
nullable with the type unchanged, is never marked breaking. -/
theorem changedColumns_breaking_formula (oldS newS : Schema) :
    ((diffSchemas oldS newS).changedTables.all (fun td =>
      td.changedColumns.all (fun ch =>
        ch.breaking ==
          ((ch.oldType != ch.newType) || (ch.oldNullable && !ch.newNullable))))) =
      true := by
  rw [List.all_eq_true]
  intro td htd
  simp only [diffSchemas, List.mem_filterMap] at htd
  obtain ⟨p, _, hf⟩ := htd
  have hcc : ∀ ch ∈ td.changedColumns,
      ch.breaking =
        ((ch.oldType != ch.newType) || (ch.oldNullable && !ch.newNullable)) := by
    revert hf
    cases mapGet oldS.tables p.1 with
    | none => simp
    | some oldT =>
      simp only
      split
      · intro hf
        cases hf
        intro ch hch
        simp only [diffTable, List.mem_filterMap] at hch
        obtain ⟨q, _, hq⟩ := hch
        revert hq
        cases mapGet oldT.columns q.1 with
        | none => simp
        | some oldCol =>
          simp only
          split
          · intro hq
            cases hq
            rfl
          · simp
      · simp
  rw [List.all_eq_true]
  intro ch hch
  simpa using hcc ch hch

/-! ### `filterBreakingOnly` against its specification (claim C3) -/

/-- Specification-side restatement of `filterBreakingOnly`, written from the
claim's words: keep `removedTables`; for each changed table keep its name,
`removedColumns` and `removedConstraints`, empty out `addedColumns` and
`addedConstraints`, restrict `changedColumns` to breaking entries, and drop
the table when the three retained lists are all empty. -/
def filterBreakingOnlySpec (d : Diff) : Diff :=
  { addedTables := []
    removedTables := d.removedTables
    changedTables :=
      d.changedTables.filterMap (fun t =>
        let kept := t.changedColumns.filter (fun c => c.breaking)
        if t.removedColumns = [] ∧ kept = [] ∧ t.removedConstraints = [] then none
        else
          some { name := t.name
                 addedColumns := []
                 removedColumns := t.removedColumns
                 changedColumns := kept
                 addedConstraints := []
                 removedConstraints := t.removedConstraints }) }

theorem filter_map_eq_filterMap {α β : Type} (f : α → β) (p : β → Bool)
    (l : List α) :
    (l.map f).filter p = l.filterMap (fun a => if p (f a) then some (f a) else none) := by
  induction l with
  | nil => rfl
  | cons a l ih =>
    simp only [List.map_cons, List.filter_cons, List.filterMap_cons]
    by_cases h : p (f a) <;> simp [h, ih]

/-- C3 — `filterBreakingOnly` computes exactly the diff described by the
specification. -/
theorem filterBreakingOnly_eq_spec (d : Diff) :
    filterBreakingOnly d = filterBreakingOnlySpec d := by
  unfold filterBreakingOnly filterBreakingOnlySpec
  simp only [Diff.mk.injEq, true_and]
  rw [filter_map_eq_filterMap]
  congr 1
  funext t
  by_cases h1 : t.removedColumns = [] <;>
    by_cases h2 : t.changedColumns.filter (fun c => c.breaking) = [] <;>
      by_cases h3 : t.removedConstraints = [] <;>
        simp [h1, h2, h3, List.isEmpty_iff, List.isEmpty_eq_false]

/-! ### `hasBreakingChanges` is invariant under `filterBreakingOnly` (C10) -/

theorem any_filter_self {α : Type} (p : α → Bool) (l : List α) :
    (l.filter p).any p = l.any p := by
  induction l with
  | nil => rfl
  | cons a l ih => by_cases h : p a <;> simp [List.filter_cons, h, ih]

/-- C10 — filtering a diff to breaking-only changes preserves the aggregate
breaking predicate: removed tables survive unchanged, tables with removed
columns or breaking column changes are kept, and tables kept only for a
removed constraint contribute nothing to either side. -/
theorem hasBreakingChanges_filterBreakingOnly (d : Diff) :
    hasBreakingChanges (filterBreakingOnly d) = hasBreakingChanges d := by
  unfold hasBreakingChanges filterBreakingOnly
  simp only
  congr 1
  induction d.changedTables with
  | nil => rfl
  | cons t l ih =>
    have hg : ((t.changedColumns.filter (fun ch => ch.breaking)).any
        (fun ch => ch.breaking)) = t.changedColumns.any (fun ch => ch.breaking) :=
      any_filter_self _ _
    simp only [List.map_cons, List.filter_cons]
    split
    · rename_i hc
      simp only [List.any_cons, ih, hg]
    · rename_i hc
      rw [Bool.not_eq_true] at hc
      simp only [Bool.or_eq_false_iff, Bool.not_eq_false'] at hc
      have h1 : t.removedColumns.isEmpty = true := hc.1.1
      have h2 : (t.changedColumns.filter (fun ch => ch.breaking)).isEmpty = true :=
        hc.1.2
      have h2' : t.changedColumns.any (fun ch => ch.breaking) = false := by
        rw [← hg, List.isEmpty_iff.mp h2]
        rfl
      simp [List.any_cons, ih, h1, h2']

/-! ### Constraint matching (claim C6) -/

theorem strMem_eq_false_iff {s : String} {l : List String} :
    strMem s l = false ↔ s ∉ l := by
  rw [← Bool.not_eq_true, strMem_iff]

/-- Old table for the constraint-collision counterexample: one constraint of
type `A` over the single column `B:C`. -/
def colonOld : Schema :=
  { tables := [("t", { name := "t", columns := [],
                       constraints := [⟨"c1", "A", ["B:C"], none⟩] })] }

/-- New table for the constraint-collision counterexample: one constraint of
type `A:B` over the single column `C`. -/
def colonNew : Schema :=
  { tables := [("t", { name := "t", columns := [],
                       constraints := [⟨"c2", "A:B", ["C"], none⟩] })] }

/-- C6 counterexample — the two constraints have different types (`A` vs
`A:B`) and different joined column lists (`B:C` vs `C`), so by the claim they
are not the same constraint and should be reported; yet their identity keys
`type ++ ":" ++ join` coincide, so `diffSchemas` reports no added and no
removed constraints (the diff is empty). -/
theorem constraint_matching_counterexample :
    diffSchemas colonOld colonNew = ⟨[], [], []⟩ ∧
      constraintKey ⟨"c1", "A", ["B:C"], none⟩ =
        constraintKey ⟨"c2", "A:B", ["C"], none⟩ ∧
      ("A" : String) ≠ "A:B" ∧
      String.intercalate "," ["B:C"] ≠ String.intercalate "," ["C"] := by
  refine ⟨by decide, by decide, by decide, by decide⟩

/-- C6 amended — two constraints are matched as the same constraint iff their
identity keys `type ++ ":" ++ columns-joined-by-comma` are equal (a slightly
coarser relation than componentwise equality of type and joined columns, as
the counterexample shows); constraint names and `references` play no role, so
two tables whose constraint lists agree pointwise on type and columns produce
no added and no removed constraints. -/
theorem constraint_matching (name : String) (oldT newT : Table) :
    (∀ con : Constraint,
      (con ∈ (diffTable name oldT newT).addedConstraints ↔
        con ∈ newT.constraints ∧
          constraintKey con ∉ oldT.constraints.map constraintKey) ∧
      (con ∈ (diffTable name oldT newT).removedConstraints ↔
        con ∈ oldT.constraints ∧
          constraintKey con ∉ newT.constraints.map constraintKey)) ∧
    (oldT.constraints.map (fun c => (c.type, c.columns)) =
        newT.constraints.map (fun c => (c.type, c.columns)) →
      (diffTable name oldT newT).addedConstraints = [] ∧
        (diffTable name oldT newT).removedConstraints = []) := by
  have keyFactor : ∀ cs : List Constraint,
      cs.map constraintKey =
        (cs.map (fun c => (c.type, c.columns))).map
          (fun p => p.1 ++ ":" ++ String.intercalate "," p.2) := by
    intro cs
    rw [List.map_map]
    rfl
  constructor
  · intro con
    constructor
    · simp only [diffTable, List.mem_filter, Bool.not_eq_true']
      exact and_congr_right fun _ => strMem_eq_false_iff
    · simp only [diffTable, List.mem_filter, Bool.not_eq_true']
      exact and_congr_right fun _ => strMem_eq_false_iff
  · intro h
    have hkeys : oldT.constraints.map constraintKey =
        newT.constraints.map constraintKey := by
      rw [keyFactor, keyFactor, h]
    constructor
    · simp only [diffTable]
      rw [List.filter_eq_nil_iff]
      intro con hcon
      have : constraintKey con ∈ oldT.constraints.map constraintKey := by
        rw [hkeys]
        exact List.mem_map_of_mem constraintKey hcon
      simp [strMem_iff.mpr this]
    · simp only [diffTable]
      rw [List.filter_eq_nil_iff]
      intro con hcon
      have : constraintKey con ∈ newT.constraints.map constraintKey := by
        rw [← hkeys]
        exact List.mem_map_of_mem constraintKey hcon
      simp [strMem_iff.mpr this]

/-- C6 witness: two constraints agreeing on type and columns but differing in
name and foreign-key target are matched, so nothing is added or removed. -/
theorem constraint_matching_witness :
    (diffTable "t" ⟨"t", [], [⟨"x", "UNIQUE", ["a"], none⟩]⟩
        ⟨"t", [], [⟨"y", "UNIQUE", ["a"], some "other(z)"⟩]⟩).addedConstraints = [] ∧
      (diffTable "t" ⟨"t", [], [⟨"x", "UNIQUE", ["a"], none⟩]⟩
        ⟨"t", [], [⟨"y", "UNIQUE", ["a"], some "other(z)"⟩]⟩).removedConstraints = [] :=
  (constraint_matching "t" ⟨"t", [], [⟨"x", "UNIQUE", ["a"], none⟩]⟩
    ⟨"t", [], [⟨"y", "UNIQUE", ["a"], some "other(z)"⟩]⟩).2 (by decide)

/-! ### SQL column-clause parsing (src/index.ts lines 143-161, claim C4)

The clause classifier and the two regexes of the column branch are embedded
as deterministic character-list functions.  The JS character classes involved
are ASCII-only, so the simulation works over ASCII semantics of
`Char.toUpper`/`Char.toLower`. -/

/-- JS regex `\w`. -/
def jsIsWordChar (c : Char) : Bool := c.isAlpha || c.isDigit || c == '_'

/-- JS regex `\s`, restricted to its ASCII members. -/
def jsIsSpaceChar (c : Char) : Bool :=
  c == ' ' || c == '\t' || c == '\n' || c == '\r' ||
    c == Char.ofNat 11 || c == Char.ofNat 12

/-- The character class `[\w() ,]` of the column-type group. -/
def jsIsTypeChar (c : Char) : Bool :=
  jsIsWordChar c || c == '(' || c == ')' || c == ' ' || c == ','

/-- The quote class of the column regex: a double quote or a backtick
(character code 96). -/
def isQuoteChar (c : Char) : Bool := c == '"' || c == Char.ofNat 96

/-- JS `String.prototype.trim` over the ASCII whitespace class. -/
def jsTrim (cs : List Char) : List Char :=
  ((cs.dropWhile jsIsSpaceChar).reverse.dropWhile jsIsSpaceChar).reverse

/-- Consume the optional quote of the pattern fragment `["` + backtick + `]?`. -/
def stripQuote (cs : List Char) : List Char :=
  match cs with
  | c :: rest => if isQuoteChar c then rest else cs
  | [] => []

/-- Substring test, as JS `String.prototype.includes`. -/
def containsSub (pat : List Char) : List Char → Bool
  | [] => pat.isEmpty
  | c :: rest => pat.isPrefixOf (c :: rest) || containsSub pat rest

/-- Deterministic simulation of the anchored column regex
`^["` + backtick + `]?(\w+)["` + backtick + `]?\s+(\w[\w() ,]*)` (with the
`i` flag, which is irrelevant for these classes): greedy quantifiers over
disjoint character classes need no backtracking, so the name group is the
maximal leading `\w` run and the type group is the maximal `[\w() ,]` run
after the whitespace, provided it starts with a `\w` character. -/
def matchColumnDef (cs : List Char) : Option (List Char × List Char) :=
  if ((stripQuote cs).takeWhile jsIsWordChar).isEmpty then none
  else if ((stripQuote ((stripQuote cs).dropWhile jsIsWordChar)).takeWhile
      jsIsSpaceChar).isEmpty then none
  else
    match (stripQuote ((stripQuote cs).dropWhile jsIsWordChar)).dropWhile
        jsIsSpaceChar with
    | [] => none
    | c :: rest =>
      if jsIsWordChar c then
        some ((stripQuote cs).takeWhile jsIsWordChar, (c :: rest).takeWhile jsIsTypeChar)
      else none

/-- The group `([^ ,]+)` of the DEFAULT regex: succeeds when the head is
neither a space nor a comma, producing the maximal such run. -/
def defaultTokenAt (cs : List Char) : Option (List Char) :=
  match cs with
  | [] => none
  | c :: _ =>
    if !(c == ' ' || c == ',') then
      some (cs.takeWhile (fun c => !(c == ' ' || c == ',')))
    else none

/-- Backtracking of the greedy `\s+` of the DEFAULT regex: try consuming
`k` whitespace characters, largest `k` first, at least one. -/
def defaultBacktrack : Nat → List Char → Option (List Char)
  | 0, _ => none
  | Nat.succ k, cs =>
    match defaultTokenAt (cs.drop (Nat.succ k)) with
    | some t => some t
    | none => defaultBacktrack k cs

/-- Match `\s+([^ ,]+)` at the start of `cs`. -/
def matchDefaultAfter (cs : List Char) : Option (List Char) :=
  defaultBacktrack (cs.takeWhile jsIsSpaceChar).length cs

/-- Leftmost match of `DEFAULT\s+([^ ,]+)` with the `i` flag
(src/index.ts line 151). -/
def findDefault : List Char → Option (List Char)
  | [] => none
  | c :: rest =>
    if ((c :: rest).take 7).map Char.toUpper = "DEFAULT".toList then
      match matchDefaultAfter ((c :: rest).drop 7) with
      | some t => some t
      | none => findDefault rest
    else findDefault rest

/-- The variable `upper = line.toUpperCase().trim()` of the clause loop. -/
def clauseUpper (line : String) : List Char :=
  jsTrim (line.toList.map Char.toUpper)

/-- The column branch of the clause loop (src/index.ts lines 98-161),
restricted to one clause: `none` when the clause is classified as a
table-level constraint / CHECK / INDEX or when the column regex fails,
otherwise the `Column` stored by `columns.set`. -/
def parseColumnClause (line : String) : Option Column :=
  if "PRIMARY KEY".toList.isPrefixOf (clauseUpper line) then none
  else if "UNIQUE".toList.isPrefixOf (clauseUpper line) then none
  else if "FOREIGN KEY".toList.isPrefixOf (clauseUpper line) then none
  else if "CONSTRAINT".toList.isPrefixOf (clauseUpper line) then none
  else if "CHECK".toList.isPrefixOf (clauseUpper line) then none
  else if "INDEX".toList.isPrefixOf (clauseUpper line) then none
  else
    match matchColumnDef line.toList with
    | none => none
    | some (nameCs, typeCs) =>
      some { name := String.mk (nameCs.map Char.toLower)
             type := String.mk ((jsTrim typeCs).map Char.toUpper)
             nullable := !(containsSub "NOT NULL".toList (clauseUpper line)) &&
               !(containsSub "PRIMARY KEY".toList (clauseUpper line))
             defaultVal := (findDefault line.toList).map String.mk
             primaryKey := containsSub "PRIMARY KEY".toList (clauseUpper line)
             unique := containsSub "UNIQUE".toList (clauseUpper line) }

/-! Specification-side characterizations of the two extracted groups. -/

/-- The clause remainder after the optional quote, the column-name run, the
optional closing quote and the separating whitespace. -/
def afterNameRemainder (cs : List Char) : List Char :=
  (stripQuote ((stripQuote cs).dropWhile jsIsWordChar)).dropWhile jsIsSpaceChar

/-- Specification of the stored column type: the maximal run of word
characters, parentheses, spaces and commas following the column name,
trimmed and upper-cased.  The run extends through any modifiers written with
those characters (PRIMARY KEY, UNIQUE, NOT NULL, DEFAULT and its token). -/
def specColType (cs : List Char) : String :=
  String.mk ((jsTrim ((afterNameRemainder cs).takeWhile jsIsTypeChar)).map Char.toUpper)

/-- Specification of the greedy whitespace consumption: among all the ways
to consume at least one and at most all of the leading whitespace characters,
the longest one followed by a non-space non-comma character wins. -/
def defaultMatchAtSpec (cs : List Char) : Option (List Char) :=
  (List.range ((cs.takeWhile jsIsSpaceChar).length + 1)).reverse.findSome?
    (fun k => if k = 0 then none else defaultTokenAt (cs.drop k))

/-- Specification of the stored default value: at the leftmost
case-insensitive occurrence of `DEFAULT` admitting a match, the first
space/comma-delimited token after the whitespace that follows `DEFAULT`. -/
def specDefaultVal : List Char → Option (List Char)
  | [] => none
  | c :: rest =>
    if ((c :: rest).take 7).map Char.toUpper = "DEFAULT".toList then
      match defaultMatchAtSpec ((c :: rest).drop 7) with
      | some t => some t
      | none => specDefaultVal rest
    else specDefaultVal rest

theorem defaultBacktrack_eq_spec (cs : List Char) :
    ∀ n, defaultBacktrack n cs =
      (List.range (n + 1)).reverse.findSome?
        (fun k => if k = 0 then none else defaultTokenAt (cs.drop k)) := by
  intro n
  induction n with
  | zero => simp [defaultBacktrack, List.range_succ]
  | succ k ih =>
    rw [List.range_succ, List.reverse_append]
    simp only [List.reverse_singleton, List.singleton_append, List.findSome?_cons]
    rw [if_neg (Nat.succ_ne_zero k)]
    unfold defaultBacktrack
    cases defaultTokenAt (cs.drop (k + 1)) with
    | none => simpa using ih
    | some t => rfl

theorem matchDefaultAfter_eq_spec (cs : List Char) :
    matchDefaultAfter cs = defaultMatchAtSpec cs :=
  defaultBacktrack_eq_spec cs _

theorem findDefault_eq_spec (cs : List Char) :
    findDefault cs = specDefaultVal cs := by
  induction cs with
  | nil => rfl
  | cons c rest ih =>
    unfold findDefault specDefaultVal
    rw [matchDefaultAfter_eq_spec]
    split
    · cases defaultMatchAtSpec ((c :: rest).drop 7) with
      | none => simpa using ih
      | some t => rfl
    · exact ih

theorem matchColumnDef_type {cs nameCs typeCs : List Char}
    (h : matchColumnDef cs = some (nameCs, typeCs)) :
    typeCs = (afterNameRemainder cs).takeWhile jsIsTypeChar := by
  unfold matchColumnDef at h
  split at h
  · exact absurd h (by simp)
  · split at h
    · exact absurd h (by simp)
    · rename_i hrem
      split at h
      · exact absurd h (by simp)
      · rename_i c rest hcons
        split at h
        · have := (Option.some.injEq _ _).mp h
          have ht : typeCs = (c :: rest).takeWhile jsIsTypeChar :=
            (Prod.mk.injEq .. ▸ this).2.symm
          rw [ht, afterNameRemainder, hcons]
        · exact absurd h (by simp)

/-- C4 counterexample — the clause `id INTEGER PRIMARY KEY` is treated as a
column definition, but the stored type is `INTEGER PRIMARY KEY`, not the
claimed `INTEGER`: the type group's character class includes spaces, so it
runs through the modifiers instead of stopping before them. -/
theorem column_type_counterexample :
    (parseColumnClause "id INTEGER PRIMARY KEY").map Column.type =
        some "INTEGER PRIMARY KEY" ∧
      (some "INTEGER PRIMARY KEY" : Option String) ≠ some "INTEGER" := by
  refine ⟨by decide, by decide⟩

/-- C4 amended — for every clause treated as a column definition, the stored
type is the trimmed, upper-cased maximal run of word characters, parentheses,
spaces and commas following the column name (running through any recognized
modifiers rather than stopping before them), and the stored default is the
first space/comma-delimited token after `DEFAULT` and its whitespace, kept as
unparsed text; concretely, `id INTEGER PRIMARY KEY` stores type
`INTEGER PRIMARY KEY`, and `age INT DEFAULT 0` stores type `INT DEFAULT 0`
with default `0` (a quoted token retains its quotes). -/
theorem parseColumnClause_type_default :
    (∀ (line : String) (col : Column), parseColumnClause line = some col →
      col.type = specColType line.toList ∧
      col.defaultVal = (specDefaultVal line.toList).map String.mk) ∧
    parseColumnClause "id INTEGER PRIMARY KEY" =
      some ⟨"id", "INTEGER PRIMARY KEY", false, none, true, false⟩ ∧
    parseColumnClause "age INT DEFAULT 0" =
      some ⟨"age", "INT DEFAULT 0", true, some "0", false, false⟩ ∧
    parseColumnClause "note TEXT DEFAULT \"hi\"" =
      some ⟨"note", "TEXT DEFAULT", true, some "\"hi\"", false, false⟩ := by
  refine ⟨?_, by decide, by decide, by decide⟩
  intro line col h
  unfold parseColumnClause at h
  split at h
  · exact absurd h (by simp)
  · split at h
    · exact absurd h (by simp)
    · split at h
      · exact absurd h (by simp)
      · split at h
        · exact absurd h (by simp)
        · split at h
          · exact absurd h (by simp)
          · split at h
            · exact absurd h (by simp)
            · split at h
              · exact absurd h (by simp)
              · rename_i nameCs typeCs hmatch
                have hcol := (Option.some.injEq _ _).mp h
                subst hcol
                refine ⟨?_, ?_⟩
                · simp only [specColType, ← matchColumnDef_type hmatch]
                · simp only [← findDefault_eq_spec]

/-- C4 witness: the amended characterization applied to `age INT DEFAULT 0`. -/
theorem parseColumnClause_type_default_witness :
    (Column.type ⟨"age", "INT DEFAULT 0", true, some "0", false, false⟩ =
        specColType "age INT DEFAULT 0".toList) ∧
      (Column.defaultVal ⟨"age", "INT DEFAULT 0", true, some "0", false, false⟩ =
        (specDefaultVal "age INT DEFAULT 0".toList).map String.mk) :=
  parseColumnClause_type_default.1 "age INT DEFAULT 0"
    ⟨"age", "INT DEFAULT 0", true, some "0", false, false⟩ (by decide)

/-! ### JSON schema parsing (src/index.ts lines 171-218, claim C5)

The code runs after `JSON.parse`, so its input is modelled as a JSON value
tree.  Property access `x.f` on `null` throws a TypeError in JS; that is the
`.error` case below.  Property access on a primitive yields `undefined`
(modelled as `none`), so primitives never throw.  JSON numbers are modelled
as integers (no claim depends on float formatting), and `Object.entries` of
a string enumerates its characters, as in JS. -/

inductive JValue : Type where
  | jnull : JValue
  | jbool : Bool → JValue
  | jnum : Int → JValue
  | jstr : String → JValue
  | jarr : List JValue → JValue
  | jobj : List (String × JValue) → JValue

def JValue.isNull : JValue → Bool
  | .jnull => true
  | _ => false

/-- JS property access `v.k`, `undefined` as `none` (`null` receivers are
handled at each call site, where JS would throw). -/
def jsGet (v : JValue) (k : String) : Option JValue :=
  match v with
  | .jobj fs => (fs.find? (fun p => p.1 == k)).map (fun p => p.2)
  | _ => none

/-- JS truthiness. -/
def jsTruthy : JValue → Bool
  | .jnull => false
  | .jbool b => b
  | .jnum n => n != 0
  | .jstr s => !s.isEmpty
  | .jarr _ => true
  | .jobj _ => true

/-- JS `typeof v === "object"` (true for objects, arrays and null). -/
def isObjTypeof : JValue → Bool
  | .jobj _ => true
  | .jarr _ => true
  | .jnull => true
  | _ => false

/-- JS `Object.entries`. -/
def jsEntries : JValue → List (String × JValue)
  | .jobj fs => fs
  | .jarr xs => xs.enum.map (fun p => (toString p.1, p.2))
  | .jstr s => s.toList.enum.map (fun p => (toString p.1, JValue.jstr (String.mk [p.2])))
  | _ => []

/-- JS `String(v)` (array elements are joined with `,`, a nested `null`
joining as the empty string). -/
def jsToString : JValue → String
  | .jnull => "null"
  | .jbool true => "true"
  | .jbool false => "false"
  | .jnum n => toString n
  | .jstr s => s
  | .jobj _ => "[object Object]"
  | .jarr xs =>
    String.intercalate "," (xs.attach.map (fun p =>
      if p.1.isNull then "" else jsToString p.1))
termination_by v => sizeOf v
decreasing_by
  simp_wf
  have := List.sizeOf_lt_of_mem p.2
  omega

/-- ASCII upper-casing of a string (JS `toUpperCase` on the ASCII inputs
involved here). -/
def strUpper (s : String) : String := String.mk (s.toList.map Char.toUpper)

/-- ASCII lower-casing of a string (JS `toLowerCase`). -/
def strLower (s : String) : String := String.mk (s.toList.map Char.toLower)

/-- One column entry (src/index.ts lines 185-194).  Accessing `col.type` on
a `null` column definition throws; otherwise every field defaults. -/
def parseColDef (colName : String) (colDef : JValue) : Except String Column :=
  if colDef.isNull then .error "TypeError: cannot read properties of null"
  else
    .ok { name := strLower colName
          type := strUpper (match jsGet colDef "type" with
                            | some (.jstr s) => s
                            | _ => "TEXT")
          nullable := (match jsGet colDef "nullable" with
                       | some (.jbool false) => false
                       | _ => true)
          defaultVal := (match jsGet colDef "default" with
                         | some .jnull => none
                         | some v => some (jsToString v)
                         | none => none)
          primaryKey := (match jsGet colDef "primaryKey" with
                         | some (.jbool true) => true
                         | _ => false)
          unique := (match jsGet colDef "unique" with
                     | some (.jbool true) => true
                     | _ => false) }

/-- One constraint entry (src/index.ts lines 199-207).  The TS cast
`c.columns as string[]` keeps raw values that are only ever consumed through
`join(",")`, which stringifies each element (empty string for `null`); that
conversion is applied here. -/
def parseConstraintDef (cj : JValue) : Except String Constraint :=
  if cj.isNull then .error "TypeError: cannot read properties of null"
  else
    .ok { name := (match jsGet cj "name" with
                   | some v => if jsTruthy v then jsToString v else ""
                   | none => "")
          type := (match jsGet cj "type" with
                   | some v => if jsTruthy v then jsToString v else ""
                   | none => "")
          columns := (match jsGet cj "columns" with
                      | some (.jarr xs) =>
                        xs.map (fun x => if x.isNull then "" else jsToString x)
                      | _ => [])
          references := (match jsGet cj "references" with
                         | some v => if jsTruthy v then some (jsToString v) else none
                         | none => none) }

/-- The `for (const [colName, colDef] of Object.entries(def.columns))` loop
with `columns.set(colName.toLowerCase(), ...)`. -/
def buildColumns : List (String × JValue) → List (String × Column) →
    Except String (List (String × Column))
  | [], acc => .ok acc
  | p :: rest, acc =>
    match parseColDef p.1 p.2 with
    | .error e => .error e
    | .ok c => buildColumns rest (mapSet acc (strLower p.1) c)

/-- The `for (const con of def.constraints)` loop. -/
def buildConstraints : List JValue → List Constraint → Except String (List Constraint)
  | [], acc => .ok acc
  | x :: rest, acc =>
    match parseConstraintDef x with
    | .error e => .error e
    | .ok c => buildConstraints rest (acc ++ [c])

/-- The column phase of one table entry: columns are read only when
`def.columns` is truthy and of object type (src/index.ts line 184). -/
def columnsStep (d : JValue) : Except String (List (String × Column)) :=
  match jsGet d "columns" with
  | some cv =>
    if jsTruthy cv && isObjTypeof cv then buildColumns (jsEntries cv) []
    else .ok []
  | none => .ok []

/-- The constraint phase of one table entry: constraints are read only when
`def.constraints` is an array (src/index.ts line 198). -/
def constraintsStep (d : JValue) : Except String (List Constraint) :=
  match jsGet d "constraints" with
  | some (.jarr xs) => buildConstraints xs []
  | _ => .ok []

/-- One table entry (src/index.ts lines 179-214): `def.columns` throws on a
`null` table definition. -/
def parseTableDef (tableName : String) (tdef : JValue) : Except String Table :=
  if tdef.isNull then .error "TypeError: cannot read properties of null"
  else
    match columnsStep tdef with
    | .error e => .error e
    | .ok cols =>
      match constraintsStep tdef with
      | .error e => .error e
      | .ok cons => .ok { name := strLower tableName, columns := cols, constraints := cons }

/-- The outer table loop with `tables.set(tableName.toLowerCase(), ...)`. -/
def buildTables : List (String × JValue) → List (String × Table) →
    Except String (List (String × Table))
  | [], acc => .ok acc
  | p :: rest, acc =>
    match parseTableDef p.1 p.2 with
    | .error e => .error e
    | .ok t => buildTables rest (mapSet acc (strLower p.1) t)

/-- `const tableSource = json.tables || json` (src/index.ts line 177). -/
def tableSourceOf (json : JValue) : JValue :=
  match jsGet json "tables" with
  | some t => if jsTruthy t then t else json
  | none => json

/-- `parseJSONSchema` after `JSON.parse` (src/index.ts lines 171-218):
reading `json.tables` throws on a `null` root. -/
def parseJSONSchemaVal (root : JValue) : Except String Schema :=
  if root.isNull then .error "TypeError: cannot read properties of null"
  else
    match buildTables (jsEntries (tableSourceOf root)) [] with
    | .error e => .error e
    | .ok ts => .ok { tables := ts }

/-! Error characterization for C5. -/

def exOk {ε α : Type} : Except ε α → Bool
  | .ok _ => true
  | .error _ => false

/-- A table definition whose `columns` collection gets iterated and contains
a `null` column definition. -/
def colDefsBadNull (d : JValue) : Bool :=
  match jsGet d "columns" with
  | some cv =>
    (jsTruthy cv && isObjTypeof cv) && (jsEntries cv).any (fun p => p.2.isNull)
  | none => false

/-- A table definition whose `constraints` array contains a `null` entry. -/
def constraintsBadNull (d : JValue) : Bool :=
  match jsGet d "constraints" with
  | some (.jarr xs) => xs.any JValue.isNull
  | _ => false

def tableDefBadNull (d : JValue) : Bool :=
  d.isNull || colDefsBadNull d || constraintsBadNull d

/-- The positions where the parser dereferences a value that could be JSON
`null`: the root itself, a table definition, a column definition, or a
constraint entry. -/
def hasBadNull (root : JValue) : Bool :=
  root.isNull || (jsEntries (tableSourceOf root)).any (fun p => tableDefBadNull p.2)

theorem parseColDef_ok (n : String) (v : JValue) :
    exOk (parseColDef n v) = !v.isNull := by
  by_cases h : v.isNull = true <;> simp [parseColDef, h, exOk]

theorem parseConstraintDef_ok (v : JValue) :
    exOk (parseConstraintDef v) = !v.isNull := by
  by_cases h : v.isNull = true <;> simp [parseConstraintDef, h, exOk]

theorem buildColumns_ok (l : List (String × JValue)) :
    ∀ acc, exOk (buildColumns l acc) = !(l.any (fun p => p.2.isNull)) := by
  induction l with
  | nil => intro acc; rfl
  | cons p rest ih =>
    intro acc
    unfold buildColumns
    cases hv : parseColDef p.1 p.2 with
    | error e =>
      have hok := parseColDef_ok p.1 p.2
      rw [hv] at hok
      have hbad : p.2.isNull = true := by
        rw [show exOk (Except.error e : Except String Column) = false from rfl] at hok
        rwa [eq_comm, Bool.not_eq_false'] at hok
      rw [List.any_cons, hbad]
      simp [exOk]
    | ok c =>
      have hok := parseColDef_ok p.1 p.2
      rw [hv] at hok
      have hgood : p.2.isNull = false := by
        rw [show exOk (Except.ok c : Except String Column) = true from rfl] at hok
        rwa [eq_comm, Bool.not_eq_true'] at hok
      rw [List.any_cons, hgood, Bool.false_or, ih]

theorem buildConstraints_ok (l : List JValue) :
    ∀ acc, exOk (buildConstraints l acc) = !(l.any JValue.isNull) := by
  induction l with
  | nil => intro acc; rfl
  | cons x rest ih =>
    intro acc
    unfold buildConstraints
    cases hv : parseConstraintDef x with
    | error e =>
      have hok := parseConstraintDef_ok x
      rw [hv] at hok
      have hbad : x.isNull = true := by
        rw [show exOk (Except.error e : Except String Constraint) = false from rfl] at hok
        rwa [eq_comm, Bool.not_eq_false'] at hok
      rw [List.any_cons, hbad]
      simp [exOk]
    | ok c =>
      have hok := parseConstraintDef_ok x
      rw [hv] at hok
      have hgood : x.isNull = false := by
        rw [show exOk (Except.ok c : Except String Constraint) = true from rfl] at hok
        rwa [eq_comm, Bool.not_eq_true'] at hok
      rw [List.any_cons, hgood, Bool.false_or, ih]

theorem columnsStep_ok (d : JValue) :
    exOk (columnsStep d) = !colDefsBadNull d := by
  unfold columnsStep colDefsBadNull
  cases hc : jsGet d "columns" with
  | none => rfl
  | some cv =>
    show exOk (if jsTruthy cv && isObjTypeof cv then buildColumns (jsEntries cv) []
        else Except.ok []) =
      !((jsTruthy cv && isObjTypeof cv) && (jsEntries cv).any fun p => p.2.isNull)
    by_cases ht : (jsTruthy cv && isObjTypeof cv) = true
    · rw [if_pos ht, ht, Bool.true_and, buildColumns_ok]
    · rw [if_neg ht]
      rw [Bool.not_eq_true] at ht
      rw [ht, Bool.false_and]
      rfl

theorem constraintsStep_ok (d : JValue) :
    exOk (constraintsStep d) = !constraintsBadNull d := by
  unfold constraintsStep constraintsBadNull
  cases hk : jsGet d "constraints" with
  | none => rfl
  | some kv =>
    cases kv with
    | jarr xs =>
      show exOk (buildConstraints xs []) = !(xs.any JValue.isNull)
      rw [buildConstraints_ok]
    | jnull => rfl
    | jbool b => rfl
    | jnum m => rfl
    | jstr s => rfl
    | jobj fs => rfl

theorem parseTableDef_ok (n : String) (d : JValue) :
    exOk (parseTableDef n d) = !tableDefBadNull d := by
  unfold parseTableDef
  split
  · rename_i hnull
    simp [tableDefBadNull, hnull, exOk]
  · rename_i hnull
    rw [Bool.not_eq_true] at hnull
    simp only [tableDefBadNull, hnull, Bool.false_or]
    cases h1 : columnsStep d with
    | error e =>
      have hc := columnsStep_ok d
      rw [h1] at hc
      have hbad : colDefsBadNull d = true := by
        rw [show exOk (Except.error e : Except String (List (String × Column))) = false
            from rfl] at hc
        rwa [eq_comm, Bool.not_eq_false'] at hc
      simp [hbad, exOk]
    | ok cols =>
      have hc := columnsStep_ok d
      rw [h1] at hc
      have hgood : colDefsBadNull d = false := by
        rw [show exOk (Except.ok cols : Except String (List (String × Column))) = true
            from rfl] at hc
        rwa [eq_comm, Bool.not_eq_true'] at hc
      rw [hgood, Bool.false_or]
      cases h2 : constraintsStep d with
      | error e =>
        have hk := constraintsStep_ok d
        rw [h2] at hk
        have hbad2 : constraintsBadNull d = true := by
          rw [show exOk (Except.error e : Except String (List Constraint)) = false
              from rfl] at hk
          rwa [eq_comm, Bool.not_eq_false'] at hk
        simp [hbad2, exOk]
      | ok cons =>
        have hk := constraintsStep_ok d
        rw [h2] at hk
        have hgood2 : constraintsBadNull d = false := by
          rw [show exOk (Except.ok cons : Except String (List Constraint)) = true
              from rfl] at hk
          rwa [eq_comm, Bool.not_eq_true'] at hk
        simp [hgood2, exOk]

theorem buildTables_ok (l : List (String × JValue)) :
    ∀ acc, exOk (buildTables l acc) = !(l.any (fun p => tableDefBadNull p.2)) := by
  induction l with
  | nil => intro acc; rfl
  | cons p rest ih =>
    intro acc
    unfold buildTables
    cases hv : parseTableDef p.1 p.2 with
    | error e =>
      have hok := parseTableDef_ok p.1 p.2
      rw [hv] at hok
      have hbad : tableDefBadNull p.2 = true := by
        rw [show exOk (Except.error e : Except String Table) = false from rfl] at hok
        rwa [eq_comm, Bool.not_eq_false'] at hok
      rw [List.any_cons, hbad]
      simp [exOk]
    | ok t =>
      have hok := parseTableDef_ok p.1 p.2
      rw [hv] at hok
      have hgood : tableDefBadNull p.2 = false := by
        rw [show exOk (Except.ok t : Except String Table) = true from rfl] at hok
        rwa [eq_comm, Bool.not_eq_true'] at hok
      rw [List.any_cons, hgood, Bool.false_or, ih]

/-- C5 counterexample — the text `null` is well-formed JSON whose parsed
value is the JSON `null` root, yet `parseJSONSchema` raises (accessing
`json.tables` on `null` throws a TypeError) instead of returning a Schema. -/
theorem parseJSONSchema_null_root_raises :
    parseJSONSchemaVal JValue.jnull =
      .error "TypeError: cannot read properties of null" := rfl

/-- C5 amended — after `JSON.parse` succeeds, the parser raises exactly when
JSON `null` sits in a dereferenced position (the root, a table definition, a
column definition, or a constraint entry); every other well-formed JSON value
yields a Schema, with absent fields defaulting (type `TEXT`, nullable true
unless explicitly false, `primaryKey`/`unique` false, empty constraint
fields).  Malformed text still raises, inside `JSON.parse` itself. -/
theorem parseJSONSchemaVal_ok_iff :
    (∀ root : JValue, exOk (parseJSONSchemaVal root) = !hasBadNull root) ∧
    (∀ s : String,
      parseColDef s (JValue.jobj []) =
        .ok ⟨strLower s, strUpper "TEXT", true, none, false, false⟩) ∧
    parseConstraintDef (JValue.jobj []) = .ok ⟨"", "", [], none⟩ ∧
    strUpper "TEXT" = "TEXT" := by
  refine ⟨?_, fun s => rfl, rfl, by decide⟩
  intro root
  unfold parseJSONSchemaVal
  split
  · rename_i hnull
    simp [hasBadNull, hnull, exOk]
  · rename_i hnull
    rw [Bool.not_eq_true] at hnull
    simp only [hasBadNull, hnull, Bool.false_or]
    cases hb : buildTables (jsEntries (tableSourceOf root)) [] with
    | error e =>
      have hok := buildTables_ok (jsEntries (tableSourceOf root)) []
      rw [hb] at hok
      have hbad : (jsEntries (tableSourceOf root)).any (fun p => tableDefBadNull p.2) =
          true := by
        rw [show exOk (Except.error e : Except String (List (String × Table))) = false
            from rfl] at hok
        rwa [eq_comm, Bool.not_eq_false'] at hok
      simp [hbad, exOk]
    | ok ts =>
      have hok := buildTables_ok (jsEntries (tableSourceOf root)) []
      rw [hb] at hok
      have hgood : (jsEntries (tableSourceOf root)).any (fun p => tableDefBadNull p.2) =
          false := by
        rw [show exOk (Except.ok ts : Except String (List (String × Table))) = true
            from rfl] at hok
        rwa [eq_comm, Bool.not_eq_true'] at hok
      simp [hgood, exOk]

end SchemaDiff
